import Mathlib

/-!
Verification of the hashmal chainparams-driven transaction codec and the
script-template matcher, shallowly embedded from the Python sources
(`hashmal_lib/core/transaction.py`, `hashmal_lib/core/chainparams.py`,
`hashmal_lib/plugins/script_gen.py`).

Byte streams are modelled as `List Nat` (each entry a byte value), readers
as functions `List Nat → Except Err (α × List Nat)` returning the parsed
value and the unconsumed tail, and Python exceptions as the `Err` type.
Machine integers are `Int`/`Nat` with explicit range checks mirroring
`struct.pack`/`struct.unpack`.
-/

namespace Hashmal

/-- Python exceptions raised by the codec and registry code:
`SerializationTruncationError` (`ser_read`), `struct.error` (bad format or
out-of-range value in `struct.pack`/`unpack`), `AttributeError` (missing
attribute in `getattr`), `KeyError` (dict lookup), and the `assert` in
`COutPoint.stream_serialize`. -/
inductive Err where
  | truncated
  | structError
  | attrError
  | keyError
  | assertError
  deriving DecidableEq

/-- Little-endian interpretation of a list of byte values, as in
`struct.unpack` with a little-endian format. -/
def natOfBytesLE : List Nat → Nat
  | [] => 0
  | b :: bs => b + 256 * natOfBytesLE bs

/-- Little-endian byte encoding of a natural number on `n` bytes, as
produced by `struct.pack` with a little-endian format. -/
def bytesOfNatLE : Nat → Nat → List Nat
  | 0, _ => []
  | n + 1, v => v % 256 :: bytesOfNatLE n (v / 256)

/-- Translation of `bitcoin.core.serialize.ser_read(f, n)`: read exactly `n`
bytes, raising `SerializationTruncationError` when fewer remain. -/
def serRead (n : Nat) (s : List Nat) : Except Err (List Nat × List Nat) :=
  if s.length < n then .error .truncated else .ok (s.take n, s.drop n)

/-- Whether `i` fits the range `struct.pack` accepts for a little-endian
integer format of width `w` bytes with the given signedness. -/
def intInRange (signed : Bool) (w : Nat) (i : Int) : Bool :=
  if signed then
    decide (-((2 : Int) ^ (8 * w - 1)) ≤ i) && decide (i < 2 ^ (8 * w - 1))
  else
    decide (0 ≤ i) && decide (i < (2 : Int) ^ (8 * w))

/-- Two's-complement representative of `i` on `w` bytes (the value whose
little-endian bytes `struct.pack` emits for an in-range `i`). -/
def intToTwos (w : Nat) (i : Int) : Nat :=
  (if i < 0 then i + 2 ^ (8 * w) else i).toNat

/-- Translation of `struct.pack` for a `w`-byte little-endian integer
format: range-check the value, then emit its two's-complement bytes. -/
def intPack (signed : Bool) (w : Nat) (i : Int) : Except Err (List Nat) :=
  if intInRange signed w i then .ok (bytesOfNatLE w (intToTwos w i))
  else .error .structError

/-- Translation of `struct.unpack` for a `w`-byte little-endian integer
format applied to `w` bytes: little-endian value, sign-corrected when the
format is signed and the top bit is set. -/
def intFromTwos (signed : Bool) (w : Nat) (bs : List Nat) : Int :=
  if signed && decide (2 ^ (8 * w - 1) ≤ natOfBytesLE bs) then
    (natOfBytesLE bs : Int) - 2 ^ (8 * w)
  else (natOfBytesLE bs : Int)

/-- Translation of `bitcoin.core.serialize.VarIntSerializer.stream_serialize`:
Bitcoin compact-size encoding of a count. Counts of `2 ^ 64` or more do not
fit the final 8-byte case and raise `struct.error`. -/
def varIntSer (n : Nat) : Except Err (List Nat) :=
  if n < 0xfd then .ok [n]
  else if n ≤ 0xffff then .ok (0xfd :: bytesOfNatLE 2 n)
  else if n ≤ 0xffffffff then .ok (0xfe :: bytesOfNatLE 4 n)
  else if n < 2 ^ 64 then .ok (0xff :: bytesOfNatLE 8 n)
  else .error .structError

/-- Translation of `VarIntSerializer.stream_deserialize`: read one tag byte,
then the value on 0, 2, 4 or 8 further bytes. -/
def varIntDeser : List Nat → Except Err (Nat × List Nat)
  | [] => .error .truncated
  | b :: s =>
    if b = 0xfd then
      match serRead 2 s with
      | .error e => .error e
      | .ok (bs, s') => .ok (natOfBytesLE bs, s')
    else if b = 0xfe then
      match serRead 4 s with
      | .error e => .error e
      | .ok (bs, s') => .ok (natOfBytesLE bs, s')
    else if b = 0xff then
      match serRead 8 s with
      | .error e => .error e
      | .ok (bs, s') => .ok (natOfBytesLE bs, s')
    else .ok (b, s)

/-- Translation of `BytesSerializer.stream_serialize`: compact-size length
followed by the raw bytes. -/
def bytesSer (b : List Nat) : Except Err (List Nat) :=
  match varIntSer b.length with
  | .error e => .error e
  | .ok c => .ok (c ++ b)

/-- Translation of `BytesSerializer.stream_deserialize`: compact-size length,
then exactly that many bytes. -/
def bytesDeser (s : List Nat) : Except Err (List Nat × List Nat) :=
  match varIntDeser s with
  | .error e => .error e
  | .ok (n, s') => serRead n s'

/-- Translation of `bitcoin.core.CTxIn` (with its `COutPoint` inlined):
32-byte previous-transaction hash, 4-byte output index, length-prefixed
signature script, 4-byte sequence number. -/
structure TxIn where
  prevHash : List Nat
  prevN : Int
  scriptSig : List Nat
  nSequence : Int
  deriving DecidableEq

/-- Translation of `bitcoin.core.CTxOut`: 8-byte signed value and
length-prefixed public-key script. -/
structure TxOut where
  nValue : Int
  scriptPubKey : List Nat
  deriving DecidableEq

/-- Translation of `CTxIn.stream_serialize` (outpoint hash asserted to be
32 bytes, `<I` index, script bytes, `<I` sequence). -/
def txInSer (txin : TxIn) : Except Err (List Nat) :=
  if txin.prevHash.length = 32 then
    match intPack false 4 txin.prevN with
    | .error e => .error e
    | .ok nb =>
      match bytesSer txin.scriptSig with
      | .error e => .error e
      | .ok ss =>
        match intPack false 4 txin.nSequence with
        | .error e => .error e
        | .ok sq => .ok (txin.prevHash ++ nb ++ ss ++ sq)
  else .error .assertError

/-- Translation of `CTxIn.stream_deserialize`. -/
def txInDeser (s : List Nat) : Except Err (TxIn × List Nat) :=
  match serRead 32 s with
  | .error e => .error e
  | .ok (h, s1) =>
    match serRead 4 s1 with
    | .error e => .error e
    | .ok (nb, s2) =>
      match bytesDeser s2 with
      | .error e => .error e
      | .ok (ss, s3) =>
        match serRead 4 s3 with
        | .error e => .error e
        | .ok (sqb, s4) =>
          .ok ({ prevHash := h, prevN := intFromTwos false 4 nb,
                 scriptSig := ss, nSequence := intFromTwos false 4 sqb }, s4)

/-- Translation of `CTxOut.stream_serialize` (`<q` value, script bytes). -/
def txOutSer (o : TxOut) : Except Err (List Nat) :=
  match intPack true 8 o.nValue with
  | .error e => .error e
  | .ok vb =>
    match bytesSer o.scriptPubKey with
    | .error e => .error e
    | .ok spk => .ok (vb ++ spk)

/-- Translation of `CTxOut.stream_deserialize`. -/
def txOutDeser (s : List Nat) : Except Err (TxOut × List Nat) :=
  match serRead 8 s with
  | .error e => .error e
  | .ok (vb, s1) =>
    match bytesDeser s1 with
    | .error e => .error e
    | .ok (spk, s2) => .ok ({ nValue := intFromTwos true 8 vb, scriptPubKey := spk }, s2)

/-- Serialized form of a list of substructures, as written by
`VectorSerializer.stream_serialize`: the elements one after another (the
compact-size count is prepended by `vecSer`). -/
def vecSerAux (ser : α → Except Err (List Nat)) : List α → Except Err (List Nat)
  | [] => .ok []
  | x :: xs =>
    match ser x with
    | .error e => .error e
    | .ok b =>
      match vecSerAux ser xs with
      | .error e => .error e
      | .ok bs => .ok (b ++ bs)

/-- Translation of `VectorSerializer.stream_serialize`: compact-size count
followed by the serialized elements. -/
def vecSer (ser : α → Except Err (List Nat)) (l : List α) : Except Err (List Nat) :=
  match varIntSer l.length with
  | .error e => .error e
  | .ok c =>
    match vecSerAux ser l with
    | .error e => .error e
    | .ok b => .ok (c ++ b)

/-- Read `n` substructures in sequence, as the loop in
`VectorSerializer.stream_deserialize` does. -/
def vecDeserN (deser : List Nat → Except Err (α × List Nat)) :
    Nat → List Nat → Except Err (List α × List Nat)
  | 0, s => .ok ([], s)
  | n + 1, s =>
    match deser s with
    | .error e => .error e
    | .ok (x, s') =>
      match vecDeserN deser n s' with
      | .error e => .error e
      | .ok (xs, s'') => .ok (x :: xs, s'')

/-- Translation of `VectorSerializer.stream_deserialize`: compact-size
count, then that many substructures. -/
def vecDeser (deser : List Nat → Except Err (α × List Nat)) (s : List Nat) :
    Except Err (List α × List Nat) :=
  match varIntDeser s with
  | .error e => .error e
  | .ok (n, s') => vecDeserN deser n s'

/-- Validity of a `TxIn` as a value the codec round-trips: byte-valued
lists of the right shapes and in-range integers. -/
def validTxIn (txin : TxIn) : Bool :=
  decide (txin.prevHash.length = 32) && txin.prevHash.all (· < 256) &&
    intInRange false 4 txin.prevN && txin.scriptSig.all (· < 256) &&
    decide (txin.scriptSig.length < 2 ^ 64) && intInRange false 4 txin.nSequence

/-- Validity of a `TxOut` as a value the codec round-trips. -/
def validTxOut (o : TxOut) : Bool :=
  intInRange true 8 o.nValue && o.scriptPubKey.all (· < 256) &&
    decide (o.scriptPubKey.length < 2 ^ 64)

/-- Python values a transaction attribute can hold: an int, a byte string,
a list of inputs, a list of outputs, or `None` (the default of the `vin`
and `vout` schema entries). -/
inductive Value where
  | vInt (i : Int)
  | vBytes (b : List Nat)
  | vInputs (l : List TxIn)
  | vOutputs (l : List TxOut)
  | vNone
  deriving DecidableEq

/-- The `fmt` component of a tx-field tuple: a `struct` format string or
one of the special strings recognised by the transaction codec. The
built-in presets use only the little-endian formats `<i` (signed) and
`<I` (unsigned); `vectortx` appears in block schemas and is not special
to the transaction codec, so it falls into the `struct` branch there. -/
inductive Fmt where
  | fmtIntS
  | fmtIntU
  | inputs
  | outputs
  | bytes
  | vectortx
  deriving DecidableEq

/-- A tx-field 4-tuple `(attribute_name, fmt, num_bytes, default)` from
`chainparams.ParamsPreset`. -/
structure FieldSpec where
  name : String
  fmt : Fmt
  numBytes : Option Nat
  default : Value
  deriving DecidableEq

/-- An ordered field-schema, i.e. a `tx_fields`-style list. -/
abbrev Schema := List FieldSpec

/-- Python attribute lookup on an attribute map. -/
def getAttr : List (String × Value) → String → Option Value
  | [], _ => none
  | (k', v') :: rest, k => if k' = k then some v' else getAttr rest k

/-- Python `setattr`: overwrite the attribute in place if present,
otherwise append it. -/
def setAttr : List (String × Value) → String → Value → List (String × Value)
  | [], k, v => [(k, v)]
  | (k', v') :: rest, k, v =>
    if k' = k then (k', v) :: rest else (k', v') :: setAttr rest k v

/-- A `hashmal_lib.core.transaction.Transaction`: the field schema the
instance captured at construction (`self.fields`, a copy of the global
`transaction_fields` list unless explicit fields were passed) and its
attribute map. -/
structure Transaction where
  fields : Schema
  attrs : List (String × Value)
  deriving DecidableEq

/-- The loop body shared by `Transaction.set_serialization` and
`Transaction.from_tx`: `try: getattr(...) except AttributeError:
setattr(..., default)`. -/
def fillDefault (a : List (String × Value)) (fs : FieldSpec) : List (String × Value) :=
  match getAttr a fs.name with
  | some _ => a
  | none => setAttr a fs.name fs.default

/-- Translation of `Transaction.set_serialization(fields)` with an explicit
field list: store the list and give each schema field lacking an attribute
its declared default. -/
def Transaction.set_serialization (tx : Transaction) (fields : Schema) : Transaction :=
  { fields := fields, attrs := fields.foldl fillDefault tx.attrs }

/-- Translation of `Transaction()` under global schema `globalFields`:
`CMutableTransaction.__init__` sets `nLockTime`, `vin`, `vout` and
`nVersion` to their defaults, then `set_serialization(None)` captures a
copy of the global `transaction_fields` list. -/
def txNew (globalFields : Schema) : Transaction :=
  Transaction.set_serialization
    { fields := [],
      attrs := [("nLockTime", .vInt 0), ("vin", .vInputs []),
                ("vout", .vOutputs []), ("nVersion", .vInt 1)] }
    globalFields

/-- Serialization of one schema field by `Transaction.stream_serialize`:
`struct.pack` for struct formats (note the source writes `self.vin` and
`self.vout` for the `inputs`/`outputs` formats, not the named attribute),
`VectorSerializer` for input/output lists, `BytesSerializer` for `bytes`. -/
def serField (tx : Transaction) (fs : FieldSpec) : Except Err (List Nat) :=
  match fs.fmt with
  | .fmtIntS =>
    match getAttr tx.attrs fs.name with
    | none => .error .attrError
    | some (.vInt i) => intPack true 4 i
    | some _ => .error .structError
  | .fmtIntU =>
    match getAttr tx.attrs fs.name with
    | none => .error .attrError
    | some (.vInt i) => intPack false 4 i
    | some _ => .error .structError
  | .inputs =>
    match getAttr tx.attrs "vin" with
    | some (.vInputs l) => vecSer txInSer l
    | some _ => .error .structError
    | none => .error .attrError
  | .outputs =>
    match getAttr tx.attrs "vout" with
    | some (.vOutputs l) => vecSer txOutSer l
    | some _ => .error .structError
    | none => .error .attrError
  | .bytes =>
    match getAttr tx.attrs fs.name with
    | some (.vBytes b) => bytesSer b
    | some _ => .error .structError
    | none => .error .attrError
  | .vectortx =>
    match getAttr tx.attrs fs.name with
    | none => .error .attrError
    | some _ => .error .structError

/-- The field loop of `Transaction.stream_serialize`, concatenating the
encodings in schema order. -/
def serFields (tx : Transaction) : Schema → Except Err (List Nat)
  | [] => .ok []
  | fs :: rest =>
    match serField tx fs with
    | .error e => .error e
    | .ok b =>
      match serFields tx rest with
      | .error e => .error e
      | .ok bs => .ok (b ++ bs)

/-- Translation of `Transaction.stream_serialize` writing to a fresh
byte buffer: fields are emitted in the entity's own captured schema
order. -/
def serializeTx (tx : Transaction) : Except Err (List Nat) :=
  serFields tx tx.fields

/-- Deserialization of one schema field by `Transaction.stream_deserialize`:
`ser_read` plus `struct.unpack` for struct formats (`ser_read(f, None)`
returns the whole remaining buffer, and `<i`/`<I` then require exactly 4
bytes), `VectorSerializer` for input/output lists, `BytesSerializer` for
`bytes`; the parsed value is stored under the field's attribute name. -/
def deserField (attrs : List (String × Value)) (fs : FieldSpec) (s : List Nat) :
    Except Err (List (String × Value) × List Nat) :=
  match fs.fmt with
  | .fmtIntS =>
    match (match fs.numBytes with
           | some n => serRead n s
           | none => .ok (s, [])) with
    | .error e => .error e
    | .ok (bs, s') =>
      if bs.length = 4 then .ok (setAttr attrs fs.name (.vInt (intFromTwos true 4 bs)), s')
      else .error .structError
  | .fmtIntU =>
    match (match fs.numBytes with
           | some n => serRead n s
           | none => .ok (s, [])) with
    | .error e => .error e
    | .ok (bs, s') =>
      if bs.length = 4 then .ok (setAttr attrs fs.name (.vInt (intFromTwos false 4 bs)), s')
      else .error .structError
  | .inputs =>
    match vecDeser txInDeser s with
    | .error e => .error e
    | .ok (l, s') => .ok (setAttr attrs fs.name (.vInputs l), s')
  | .outputs =>
    match vecDeser txOutDeser s with
    | .error e => .error e
    | .ok (l, s') => .ok (setAttr attrs fs.name (.vOutputs l), s')
  | .bytes =>
    match bytesDeser s with
    | .error e => .error e
    | .ok (b, s') => .ok (setAttr attrs fs.name (.vBytes b), s')
  | .vectortx => .error .structError

/-- The field loop of `Transaction.stream_deserialize`. -/
def deserFields (attrs : List (String × Value)) :
    Schema → List Nat → Except Err (List (String × Value) × List Nat)
  | [], s => .ok (attrs, s)
  | fs :: rest, s =>
    match deserField attrs fs s with
    | .error e => .error e
    | .ok (attrs', s') => deserFields attrs' rest s'

/-- Translation of `Transaction.stream_deserialize(f)` under the active
global schema: build `cls()` (which captures the global schema and its
defaults) and then overwrite each schema field with the parsed value. -/
def stream_deserialize (globalFields : Schema) (s : List Nat) :
    Except Err (Transaction × List Nat) :=
  match deserFields (txNew globalFields).attrs (txNew globalFields).fields s with
  | .error e => .error e
  | .ok (attrs, s') => .ok ({ fields := (txNew globalFields).fields, attrs := attrs }, s')

/-- Translation of the `Transaction`-subclass branch of
`Transaction.from_tx(tx)`: for each field of the *current global*
`transaction_fields` list, set the attribute to its default when the
entity lacks it. The entity's captured `fields` list is not touched. -/
def Transaction.from_tx (globalFields : Schema) (tx : Transaction) : Transaction :=
  { tx with attrs := globalFields.foldl fillDefault tx.attrs }

/-- Modelled from the spec: the `opcodes` module is not among the given
sources; per the spec an opcode-override entry carries a handler function
executing the opcode. The only handler any built-in preset supplies is
`opcodes.clams_checklocktimeverify`, so handlers are represented by this
tag type. -/
inductive OpcodeHandler where
  | clams_checklocktimeverify
  deriving DecidableEq

/-- An opcode-override 3-tuple `(value, name, func)` from
`chainparams.ParamsPreset`. -/
abbrev OpcodeOverride := Nat × String × OpcodeHandler

/-- Translation of `chainparams.ParamsPreset` (attributes `name`,
`tx_fields`, `block_header_fields`, `block_fields`, `opcode_overrides`). -/
structure ParamsPreset where
  name : String
  tx_fields : Schema
  block_header_fields : Schema
  block_fields : Schema
  opcode_overrides : List OpcodeOverride
  deriving DecidableEq

/-- The initial global `transaction.transaction_fields` list. -/
def transaction_fields : Schema :=
  [⟨"nVersion", .fmtIntS, some 4, .vInt 1⟩,
   ⟨"vin", .inputs, none, .vNone⟩,
   ⟨"vout", .outputs, none, .vNone⟩,
   ⟨"nLockTime", .fmtIntU, some 4, .vInt 0⟩]

/-- Translation of `chainparams._bitcoin_header_fields`. -/
def bitcoinHeaderFields : Schema :=
  [⟨"nVersion", .fmtIntS, some 4, .vInt 1⟩,
   ⟨"hashPrevBlock", .bytes, some 32, .vBytes (List.replicate 32 0)⟩,
   ⟨"hashMerkleRoot", .bytes, some 32, .vBytes (List.replicate 32 0)⟩,
   ⟨"nTime", .fmtIntU, some 4, .vInt 0⟩,
   ⟨"nBits", .fmtIntU, some 4, .vInt 0⟩,
   ⟨"nNonce", .fmtIntU, some 4, .vInt 0⟩]

/-- Translation of `chainparams._bitcoin_block_fields`. -/
def bitcoinBlockFields : Schema :=
  [⟨"vtx", .vectortx, none, .vNone⟩]

/-- Translation of `chainparams.BitcoinPreset`. -/
def BitcoinPreset : ParamsPreset :=
  { name := "Bitcoin",
    tx_fields :=
      [⟨"nVersion", .fmtIntS, some 4, .vInt 1⟩,
       ⟨"vin", .inputs, none, .vNone⟩,
       ⟨"vout", .outputs, none, .vNone⟩,
       ⟨"nLockTime", .fmtIntU, some 4, .vInt 0⟩],
    block_header_fields := bitcoinHeaderFields,
    block_fields := bitcoinBlockFields,
    opcode_overrides := [] }

/-- Translation of `chainparams.ClamsPreset`. -/
def ClamsPreset : ParamsPreset :=
  { name := "Clams",
    tx_fields :=
      [⟨"nVersion", .fmtIntS, some 4, .vInt 1⟩,
       ⟨"Timestamp", .fmtIntS, some 4, .vInt 0⟩,
       ⟨"vin", .inputs, none, .vNone⟩,
       ⟨"vout", .outputs, none, .vNone⟩,
       ⟨"nLockTime", .fmtIntU, some 4, .vInt 0⟩,
       ⟨"ClamSpeech", .bytes, none, .vBytes []⟩],
    block_header_fields := bitcoinHeaderFields,
    block_fields := bitcoinBlockFields ++ [⟨"blockSig", .bytes, none, .vNone⟩],
    opcode_overrides := [(0xb0, "OP_CHECKLOCKTIMEVERIFY", .clams_checklocktimeverify)] }

/-- Translation of `chainparams.FreicoinPreset`. -/
def FreicoinPreset : ParamsPreset :=
  { name := "Freicoin",
    tx_fields :=
      [⟨"nVersion", .fmtIntS, some 4, .vInt 1⟩,
       ⟨"vin", .inputs, none, .vNone⟩,
       ⟨"vout", .outputs, none, .vNone⟩,
       ⟨"nLockTime", .fmtIntU, some 4, .vInt 0⟩,
       ⟨"RefHeight", .fmtIntS, some 4, .vInt 0⟩],
    block_header_fields := bitcoinHeaderFields,
    block_fields := bitcoinBlockFields,
    opcode_overrides := [] }

/-- Translation of `chainparams.PeercoinPreset`. -/
def PeercoinPreset : ParamsPreset :=
  { name := "Peercoin",
    tx_fields :=
      [⟨"nVersion", .fmtIntS, some 4, .vInt 1⟩,
       ⟨"Timestamp", .fmtIntS, some 4, .vInt 0⟩,
       ⟨"vin", .inputs, none, .vNone⟩,
       ⟨"vout", .outputs, none, .vNone⟩,
       ⟨"nLockTime", .fmtIntU, some 4, .vInt 0⟩],
    block_header_fields := bitcoinHeaderFields,
    block_fields := bitcoinBlockFields,
    opcode_overrides := [] }

/-- Translation of `chainparams.presets_list`. -/
def presets_list : List ParamsPreset :=
  [BitcoinPreset, ClamsPreset, FreicoinPreset, PeercoinPreset]

/-- Lookup in the `chainparams.presets` dict (built from `presets_list`
keyed by preset name; names are distinct, so first match is the dict
entry). -/
def presets_lookup (name : String) : Option ParamsPreset :=
  presets_list.find? (fun p => p.name = name)

/-- The process-wide mutable chainparams state: the module-level
`transaction.transaction_fields`, `block.block_header_fields`,
`block.block_fields` lists and the `opcodes.overridden_opcodes` table. -/
structure ChainState where
  transaction_fields : Schema
  block_header_fields : Schema
  block_fields : Schema
  overridden_opcodes : List OpcodeOverride
  deriving DecidableEq

/-- Translation of `chainparams.set_tx_fields` (rebinds the module global
to a copy of the argument; existing entities keep their captured list). -/
def set_tx_fields (fields : Schema) (st : ChainState) : ChainState :=
  { st with transaction_fields := fields }

/-- Translation of `chainparams.set_block_header_fields`. -/
def set_block_header_fields (fields : Schema) (st : ChainState) : ChainState :=
  { st with block_header_fields := fields }

/-- Translation of `chainparams.set_block_fields`. -/
def set_block_fields (fields : Schema) (st : ChainState) : ChainState :=
  { st with block_fields := fields }

/-- Translation of `chainparams.set_opcode_overrides`, which delegates to
`opcodes.set_overridden_opcodes`. Modelled from the spec: the `opcodes`
module is not among the given sources; per the spec, activating a preset
replaces the override table, restoring base behavior for opcodes the new
preset does not override. -/
def set_opcode_overrides (ops : List OpcodeOverride) (st : ChainState) : ChainState :=
  { st with overridden_opcodes := ops }

/-- Translation of `chainparams.set_to_preset(name)`: look the name up in
the `presets` dict — a `KeyError` escapes before any setter runs — and
then run the four setters. The pair result carries the possibly-updated
state and the raised exception, if any. -/
def set_to_preset (name : String) (st : ChainState) : ChainState × Option Err :=
  match presets_lookup name with
  | none => (st, some .keyError)
  | some params =>
    (set_opcode_overrides params.opcode_overrides
      (set_block_fields params.block_fields
        (set_block_header_fields params.block_header_fields
          (set_tx_fields params.tx_fields st))), none)

/-- The initial chainparams state at module load: Bitcoin-format
transaction and block schemas, no opcode overrides (the override table
of the missing `opcodes` module is modelled from the spec as initially
empty). -/
def initChainState : ChainState :=
  { transaction_fields := transaction_fields,
    block_header_fields := bitcoinHeaderFields,
    block_fields := bitcoinBlockFields,
    overridden_opcodes := [] }

/-- The handler the script evaluator dispatches an opcode value to.
Modelled from the spec: the active opcode table is the base table with
the entries of `overridden_opcodes` replacing base behavior, keyed by
opcode value. -/
inductive ActiveHandler where
  | base (value : Nat)
  | override (h : OpcodeHandler)
  deriving DecidableEq

/-- Modelled from the spec: dispatch looks the opcode value up in the
override table and otherwise falls back to the base table entry for that
value. -/
def dispatch (st : ChainState) (value : Nat) : ActiveHandler :=
  match st.overridden_opcodes.find? (fun o => o.1 = value) with
  | some o => .override o.2.2
  | none => .base value

/-- Whether `v` is a well-typed, in-range value for a field of format
`fmt`, i.e. one the codec accepts and round-trips. -/
def validValue : Fmt → Value → Bool
  | .fmtIntS, .vInt i => intInRange true 4 i
  | .fmtIntU, .vInt i => intInRange false 4 i
  | .inputs, .vInputs l => l.all validTxIn && decide (l.length < 2 ^ 64)
  | .outputs, .vOutputs l => l.all validTxOut && decide (l.length < 2 ^ 64)
  | .bytes, .vBytes b => b.all (· < 256) && decide (b.length < 2 ^ 64)
  | _, _ => false

/-- Whether a field tuple follows the documented tx-field format: struct
integer formats carry their matching 4-byte width, and the input/output
list fields are the `vin`/`vout` attributes the serializer writes. All
built-in preset tx schemas satisfy this. -/
def fieldOk (fs : FieldSpec) : Bool :=
  match fs.fmt with
  | .fmtIntS => fs.numBytes = some 4
  | .fmtIntU => fs.numBytes = some 4
  | .inputs => fs.name = "vin"
  | .outputs => fs.name = "vout"
  | .bytes => true
  | .vectortx => false

/-- Whether every schema field of the entity holds a valid value. -/
def validTx (tx : Transaction) : Bool :=
  tx.fields.all (fun fs =>
    match getAttr tx.attrs fs.name with
    | some v => validValue fs.fmt v
    | none => false)

/-- Field-for-field equality of entities, per the schema both carry. -/
def txFieldEq (a b : Transaction) : Prop :=
  a.fields = b.fields ∧ ∀ fs ∈ a.fields, getAttr a.attrs fs.name = getAttr b.attrs fs.name

/-- Serialization of an entity as it happens in a process whose global
chainparams state is `st`: `Transaction.stream_serialize` reads only the
entity's own captured `fields` list and attributes, never the module
globals, so the ambient state does not enter the result. -/
def serializeInState (st : ChainState) (tx : Transaction) : Except Err (List Nat) :=
  serializeTx tx

/-- The entity produced by deserializing the ten bytes
`01000000000000000000` under the Bitcoin schema. -/
def txC3 : Transaction :=
  { fields := BitcoinPreset.tx_fields,
    attrs := [("nLockTime", .vInt 0), ("vin", .vInputs []),
              ("vout", .vOutputs []), ("nVersion", .vInt 1)] }

/-- A reader whose only failure mode is `SerializationTruncationError` and
which, on success, consumes a prefix of its input. Every reader the
transaction codec composes for a documented schema has this shape. -/
def DeserGood (f : List Nat → Except Err (α × List Nat)) : Prop :=
  ∀ s, f s = .error .truncated ∨ ∃ x s', f s = .ok (x, s') ∧ s'.length ≤ s.length

/-- The number of bytes a field is guaranteed to consume regardless of
input data: the declared width for fixed-width struct integer fields,
zero for the variable-length formats. -/
def fieldFixedWidth (fs : FieldSpec) : Nat :=
  match fs.fmt with
  | .fmtIntS => fs.numBytes.getD 0
  | .fmtIntU => fs.numBytes.getD 0
  | _ => 0

/-- The minimum fixed-field length of a schema: the sum of the declared
fixed integer widths. -/
def minFixedLen (fields : Schema) : Nat :=
  (fields.map fieldFixedWidth).sum

/-- Modelled from the spec: `hashmal_lib.core.Script` is not among the
given sources; per the spec's token grammar a human-readable script is a
whitespace-separated sequence of tokens (opcode mnemonics or
`0x`-prefixed hex push literals), and `Script.human_iter` yields those
tokens in order, so a script is represented by its token sequence. -/
abbrev ScriptTokens := List String

/-- Translation of the `script_gen.ScriptTemplate` namedtuple: template
name, template text with variable names in angle brackets, and the
variables dict mapping variable name to variable type. -/
structure ScriptTemplate where
  name : String
  text : String
  vars : List (String × String)
  deriving DecidableEq

/-- Python dict lookup on a name-to-type mapping. -/
def lookupStr : List (String × String) → String → Option String
  | [], _ => none
  | (k', v') :: rest, k => if k' = k then some v' else lookupStr rest k

/-- Python dict assignment on a name-to-value mapping. -/
def setKV : List (String × String) → String → String → List (String × String)
  | [], k, v => [(k, v)]
  | (k', v') :: rest, k, v =>
    if k' = k then (k', v) :: rest else (k', v') :: setKV rest k v

/-- The whitespace tokenizer behind Python's `str.split()` as used on
template texts. -/
def tokenize : List Char → List Char → List String
  | cur, [] => if cur.isEmpty then [] else [String.mk cur.reverse]
  | cur, c :: cs =>
    if c = ' ' then
      if cur.isEmpty then tokenize [] cs
      else String.mk cur.reverse :: tokenize [] cs
    else tokenize (c :: cur) cs

/-- Translation of `template.text.split()`. -/
def splitTokens (text : String) : List String :=
  tokenize [] text.data

/-- Python's `x[2:]` on a `0x`-prefixed string, as character lists. -/
def strip0x : List Char → List Char
  | '0' :: 'x' :: r => r
  | l => l

/-- Modelled from the spec: `hashmal_lib.core.utils.format_hex_string` is
not among the given sources; per the spec's token grammar, with
`with_prefix=False` it returns the hex digits with the `0x` prefix
stripped, and with `with_prefix=True` it ensures the prefix is present. -/
def format_hex_string (x : String) (wp : Bool) : String :=
  match wp with
  | true => if x.startsWith "0x" then x else "0x" ++ x
  | false => String.mk (strip0x x.data)

/-- Translation of `script_gen.is_valid_variable_value`: only the
`address` type has a validity rule (a 40-hex-digit hash160); every other
type falls through to `False`. -/
def is_valid_variable_value (value : String) (var_type : String) : Bool :=
  if var_type = "address" then decide ((format_hex_string value false).length = 40)
  else false

/-- Translation of `txt.startswith('<') and txt.endswith('>')` on a template token. -/
def isVarToken (txt : String) : Bool :=
  decide (txt.data.head? = some '<') && decide (txt.data.getLast? = some '>')

/-- Translation of `txt[1:-1]`: the variable name inside an angle-bracket token. -/
def varName (txt : String) : String :=
  String.mk ((txt.data.drop 1).dropLast)

/-- The scanning loop of `script_gen.is_template_script`: walk the script
tokens against the template tokens. A variable token must name a declared
variable (a `KeyError` fails the match) whose value is valid, and the
name is appended to `used_variables`; any other token must equal the
script token exactly; a script token beyond the template's end raises
`IndexError`, failing the match; the loop breaks when the script tokens
are exhausted, returning the used-variable list. -/
def templateScan (tvars : List (String × String)) :
    List String → List String → List String → Option (List String)
  | [], _, used => some used
  | _ :: _, [], _ => none
  | s :: ss, txt :: ts, used =>
    if isVarToken txt then
      match lookupStr tvars (varName txt) with
      | none => none
      | some ty =>
        if is_valid_variable_value s ty then
          templateScan tvars ss ts (used ++ [varName txt])
        else none
    else if s = txt then templateScan tvars ss ts used
    else none

/-- Translation of `script_gen.is_template_script`: scan the tokens, then
require a value to have been collected for every declared variable. -/
def is_template_script (script : ScriptTokens) (t : ScriptTemplate) : Bool :=
  match templateScan t.vars script (splitTokens t.text) [] with
  | none => false
  | some used => t.vars.all (fun kv => decide (kv.1 ∈ used))

/-- Translation of the variable-collection loop of
`ScriptTemplateItem.__init__`: pair script tokens with template tokens
until either runs out, recording each variable token's script value in
the item's variables dict. -/
def extractVariables (script : ScriptTokens) (t : ScriptTemplate) :
    List (String × String) :=
  (script.zip (splitTokens t.text)).foldl
    (fun vars p => if isVarToken p.2 then setKV vars (varName p.2) p.1 else vars) []

/-- The `script_gen.known_templates` entry for P2PKH. -/
def p2pkhTemplate : ScriptTemplate :=
  { name := "Pay-To-Public-Key-Hash Output",
    text := "OP_DUP OP_HASH160 <recipient> OP_EQUALVERIFY OP_CHECKSIG",
    vars := [("recipient", "address")] }

/-- The `script_gen.known_templates` entry for P2SH. -/
def p2shTemplate : ScriptTemplate :=
  { name := "Pay-To-Script-Hash Output",
    text := "OP_HASH160 <recipient> OP_EQUAL",
    vars := [("recipient", "address")] }

/-- The `script_gen.known_templates` entry for OP_RETURN null outputs. -/
def nullTemplate : ScriptTemplate :=
  { name := "Null Output",
    text := "OP_RETURN <text>",
    vars := [("text", "text")] }

/-- Translation of `script_gen.known_templates`. -/
def known_templates : List ScriptTemplate :=
  [p2pkhTemplate, p2shTemplate, nullTemplate]

/-- Translation of `ScriptTemplateItem.coerce_item` on an already-parsed
script: the first known template the script matches, paired with the
item's populated variables dict (`recipient()` reads the `recipient`
entry); `None` when no template matches. -/
def coerce_item (script : ScriptTokens) :
    Option (ScriptTemplate × List (String × String)) :=
  match known_templates.find? (fun t => is_template_script script t) with
  | none => none
  | some t => some (t, extractVariables script t)

/-- Whether one script token is acceptable against one template token:
variable tokens demand a declared variable with a valid value, literal
tokens demand exact equality — exactly the per-token test of the
`is_template_script` loop. -/
def tokMatches (tvars : List (String × String)) (s txt : String) : Bool :=
  if isVarToken txt then
    match lookupStr tvars (varName txt) with
    | some ty => is_valid_variable_value s ty
    | none => false
  else decide (s = txt)

theorem length_bytesOfNatLE (n v : Nat) : (bytesOfNatLE n v).length = n := by
  induction n generalizing v with
  | zero => rfl
  | succ n ih => simp [bytesOfNatLE, ih]

theorem natOfBytesLE_bytesOfNatLE (n v : Nat) (h : v < 256 ^ n) :
    natOfBytesLE (bytesOfNatLE n v) = v := by
  induction n generalizing v with
  | zero =>
    simp [bytesOfNatLE, natOfBytesLE]
    omega
  | succ n ih =>
    have hlt : v / 256 < 256 ^ n := by
      have h' : v < 256 ^ n * 256 := by rw [pow_succ] at h; exact h
      omega
    simp [bytesOfNatLE, natOfBytesLE, ih _ hlt]
    omega

theorem serRead_exact (b r : List Nat) : serRead b.length (b ++ r) = .ok (b, r) := by
  have h1 : ¬ (b ++ r).length < b.length := by simp
  simp [serRead, h1, List.take_left, List.drop_left]

theorem two_pow_8w (w : Nat) : (2 : Nat) ^ (8 * w) = 256 ^ w := by
  rw [pow_mul]
  norm_num

theorem intFromTwos_intToTwos (signed : Bool) (w : Nat) (i : Int)
    (hw : 1 ≤ w) (h : intInRange signed w i = true) :
    intFromTwos signed w (bytesOfNatLE w (intToTwos w i)) = i := by
  have hsplit : 8 * w - 1 + 1 = 8 * w := by omega
  have hpowN : (2 : Nat) ^ (8 * w) = 2 * 2 ^ (8 * w - 1) := by
    conv_lhs => rw [← hsplit]
    rw [pow_succ]
    ring
  have hpowI : (2 : Int) ^ (8 * w) = 2 * 2 ^ (8 * w - 1) := by
    conv_lhs => rw [← hsplit]
    rw [pow_succ]
    ring
  have h256 : (256 : Nat) ^ w = 2 ^ (8 * w) := (two_pow_8w w).symm
  have hcastBig : ((2 ^ (8 * w) : Nat) : Int) = 2 ^ (8 * w) := by push_cast; ring
  have hcastHalf : ((2 ^ (8 * w - 1) : Nat) : Int) = 2 ^ (8 * w - 1) := by push_cast; ring
  unfold intInRange at h
  split at h
  next hs =>
    subst hs
    simp only [Bool.and_eq_true, decide_eq_true_eq] at h
    obtain ⟨h0, h1⟩ := h
    have hposI : (0 : Int) < 2 ^ (8 * w - 1) := by positivity
    by_cases hneg : i < 0
    · have hm : (intToTwos w i : Int) = i + 2 ^ (8 * w) := by
        rw [intToTwos, if_pos hneg, Int.toNat_of_nonneg (by omega)]
      have hmlt : intToTwos w i < 256 ^ w := by omega
      have hu := natOfBytesLE_bytesOfNatLE w _ hmlt
      have hge : (2 : Nat) ^ (8 * w - 1) ≤ intToTwos w i := by omega
      simp only [intFromTwos, hu, Bool.true_and, decide_eq_true_eq]
      rw [if_pos hge]
      omega
    · push_neg at hneg
      have hm : (intToTwos w i : Int) = i := by
        rw [intToTwos, if_neg (by omega), Int.toNat_of_nonneg hneg]
      have hmlt : intToTwos w i < 256 ^ w := by omega
      have hu := natOfBytesLE_bytesOfNatLE w _ hmlt
      have hlt : ¬ (2 : Nat) ^ (8 * w - 1) ≤ intToTwos w i := by omega
      simp only [intFromTwos, hu, Bool.true_and, decide_eq_true_eq]
      rw [if_neg hlt]
      omega
  next hs =>
    simp only [Bool.and_eq_true, decide_eq_true_eq] at h
    obtain ⟨h0, h1⟩ := h
    have hm : (intToTwos w i : Int) = i := by
      rw [intToTwos, if_neg (by omega), Int.toNat_of_nonneg h0]
    have hmlt : intToTwos w i < 256 ^ w := by omega
    have hu := natOfBytesLE_bytesOfNatLE w _ hmlt
    have hsf : signed = false := by
      cases signed
      · rfl
      · exact absurd rfl hs
    simp only [intFromTwos, hu, hsf, Bool.false_and]
    rw [if_neg (by simp)]
    omega

theorem serRead_front (n : Nat) (b r : List Nat) (hb : b.length = n) :
    serRead n (b ++ r) = .ok (b, r) := by
  subst hb
  exact serRead_exact b r

theorem varIntDeser_varIntSer (n : Nat) (r : List Nat) (h : n < 2 ^ 64) :
    ∃ c, varIntSer n = .ok c ∧ varIntDeser (c ++ r) = .ok (n, r) := by
  by_cases h1 : n < 0xfd
  · refine ⟨[n], ?_, ?_⟩
    · simp [varIntSer, h1]
    · simp only [List.cons_append, List.nil_append, varIntDeser]
      rw [if_neg (by omega), if_neg (by omega), if_neg (by omega)]
  · by_cases h2 : n ≤ 0xffff
    · have hb : n < 256 ^ 2 := by norm_num; omega
      refine ⟨0xfd :: bytesOfNatLE 2 n, ?_, ?_⟩
      · simp [varIntSer, h1, h2]
      · simp [varIntDeser, serRead_front 2 (bytesOfNatLE 2 n) r (length_bytesOfNatLE 2 n),
          natOfBytesLE_bytesOfNatLE 2 n hb]
    · by_cases h3 : n ≤ 0xffffffff
      · have hb : n < 256 ^ 4 := by norm_num; omega
        refine ⟨0xfe :: bytesOfNatLE 4 n, ?_, ?_⟩
        · simp [varIntSer, h1, h2, h3]
        · simp [varIntDeser, serRead_front 4 (bytesOfNatLE 4 n) r (length_bytesOfNatLE 4 n),
            natOfBytesLE_bytesOfNatLE 4 n hb]
      · have hb : n < 256 ^ 8 := by
          have h64 : (2 : Nat) ^ 64 = 256 ^ 8 := by norm_num
          omega
        refine ⟨0xff :: bytesOfNatLE 8 n, ?_, ?_⟩
        · have h' : n < 18446744073709551616 := by
            have he : (2 : Nat) ^ 64 = 18446744073709551616 := by norm_num
            omega
          simp [varIntSer, h1, h2, h3, h']
        · simp [varIntDeser, serRead_front 8 (bytesOfNatLE 8 n) r (length_bytesOfNatLE 8 n),
            natOfBytesLE_bytesOfNatLE 8 n hb]

theorem bytesDeser_bytesSer (b r : List Nat) (h : b.length < 2 ^ 64) :
    ∃ c, bytesSer b = .ok c ∧ bytesDeser (c ++ r) = .ok (b, r) := by
  obtain ⟨c, hc1, hc2⟩ := varIntDeser_varIntSer b.length (b ++ r) h
  refine ⟨c ++ b, ?_, ?_⟩
  · rw [bytesSer, hc1]
  · rw [bytesDeser, List.append_assoc, hc2]
    exact serRead_exact b r

theorem txInDeser_txInSer (txin : TxIn) (r : List Nat) (h : validTxIn txin = true) :
    ∃ b, txInSer txin = .ok b ∧ txInDeser (b ++ r) = .ok (txin, r) := by
  simp only [validTxIn, Bool.and_eq_true, decide_eq_true_eq] at h
  obtain ⟨⟨⟨⟨⟨hh, _⟩, hn⟩, _⟩, hsl⟩, hq⟩ := h
  obtain ⟨ss, hss1, hss2⟩ := bytesDeser_bytesSer txin.scriptSig
    (bytesOfNatLE 4 (intToTwos 4 txin.nSequence) ++ r) hsl
  refine ⟨txin.prevHash ++ bytesOfNatLE 4 (intToTwos 4 txin.prevN) ++ ss ++
    bytesOfNatLE 4 (intToTwos 4 txin.nSequence), ?_, ?_⟩
  · rw [txInSer, if_pos hh, intPack, if_pos hn, hss1, intPack, if_pos hq]
  · have e1 := serRead_front 32 txin.prevHash
      (bytesOfNatLE 4 (intToTwos 4 txin.prevN) ++
        (ss ++ (bytesOfNatLE 4 (intToTwos 4 txin.nSequence) ++ r))) hh
    have e2 := serRead_front 4 (bytesOfNatLE 4 (intToTwos 4 txin.prevN))
      (ss ++ (bytesOfNatLE 4 (intToTwos 4 txin.nSequence) ++ r)) (length_bytesOfNatLE 4 _)
    have e4 := serRead_front 4 (bytesOfNatLE 4 (intToTwos 4 txin.nSequence)) r
      (length_bytesOfNatLE 4 _)
    simp only [txInDeser, List.append_assoc, e1, e2, hss2, e4,
      intFromTwos_intToTwos false 4 txin.prevN (by norm_num) hn,
      intFromTwos_intToTwos false 4 txin.nSequence (by norm_num) hq]

theorem txOutDeser_txOutSer (o : TxOut) (r : List Nat) (h : validTxOut o = true) :
    ∃ b, txOutSer o = .ok b ∧ txOutDeser (b ++ r) = .ok (o, r) := by
  simp only [validTxOut, Bool.and_eq_true, decide_eq_true_eq] at h
  obtain ⟨⟨hv, _⟩, hsl⟩ := h
  obtain ⟨spk, hspk1, hspk2⟩ := bytesDeser_bytesSer o.scriptPubKey r hsl
  refine ⟨bytesOfNatLE 8 (intToTwos 8 o.nValue) ++ spk, ?_, ?_⟩
  · rw [txOutSer, intPack, if_pos hv, hspk1]
  · have e1 := serRead_front 8 (bytesOfNatLE 8 (intToTwos 8 o.nValue)) (spk ++ r)
      (length_bytesOfNatLE 8 _)
    simp only [txOutDeser, List.append_assoc, e1, hspk2,
      intFromTwos_intToTwos true 8 o.nValue (by norm_num) hv]

theorem vecDeserN_vecSerAux (deser : List Nat → Except Err (α × List Nat))
    (ser : α → Except Err (List Nat)) (P : α → Bool)
    (hel : ∀ a r, P a = true → ∃ b, ser a = .ok b ∧ deser (b ++ r) = .ok (a, r))
    (l : List α) (hl : l.all P = true) (r : List Nat) :
    ∃ b, vecSerAux ser l = .ok b ∧ vecDeserN deser l.length (b ++ r) = .ok (l, r) := by
  induction l generalizing r with
  | nil => exact ⟨[], rfl, rfl⟩
  | cons x xs ih =>
    simp only [List.all_cons, Bool.and_eq_true] at hl
    obtain ⟨hx, hxs⟩ := hl
    obtain ⟨bs, hbs1, hbs2⟩ := ih hxs r
    obtain ⟨b, hb1, hb2⟩ := hel x (bs ++ r) hx
    refine ⟨b ++ bs, ?_, ?_⟩
    · rw [vecSerAux, hb1, hbs1]
    · simp only [List.length_cons, vecDeserN, List.append_assoc, hb2, hbs2]

theorem vecDeser_vecSer (deser : List Nat → Except Err (α × List Nat))
    (ser : α → Except Err (List Nat)) (P : α → Bool)
    (hel : ∀ a r, P a = true → ∃ b, ser a = .ok b ∧ deser (b ++ r) = .ok (a, r))
    (l : List α) (hl : l.all P = true) (hlen : l.length < 2 ^ 64) (r : List Nat) :
    ∃ b, vecSer ser l = .ok b ∧ vecDeser deser (b ++ r) = .ok (l, r) := by
  obtain ⟨bs, hbs1, hbs2⟩ := vecDeserN_vecSerAux deser ser P hel l hl r
  obtain ⟨c, hc1, hc2⟩ := varIntDeser_varIntSer l.length (bs ++ r) hlen
  refine ⟨c ++ bs, ?_, ?_⟩
  · rw [vecSer, hc1, hbs1]
  · simp only [vecDeser, List.append_assoc, hc2, hbs2]

theorem getAttr_setAttr_self (a : List (String × Value)) (k : String) (v : Value) :
    getAttr (setAttr a k v) k = some v := by
  induction a with
  | nil => simp [setAttr, getAttr]
  | cons p rest ih =>
    obtain ⟨k1, v1⟩ := p
    by_cases h : k1 = k
    · simp [setAttr, getAttr, h]
    · simp [setAttr, getAttr, h, ih]

theorem getAttr_setAttr_other (a : List (String × Value)) (k k' : String) (v : Value)
    (h : k' ≠ k) : getAttr (setAttr a k v) k' = getAttr a k' := by
  have h' : ¬ k = k' := fun hh => h hh.symm
  induction a with
  | nil =>
    simp only [setAttr, getAttr]
    rw [if_neg h']
  | cons p rest ih =>
    obtain ⟨k1, v1⟩ := p
    by_cases h1 : k1 = k
    · subst h1
      simp only [setAttr, getAttr, if_pos rfl]
      rw [if_neg h', if_neg h']
    · by_cases h2 : k1 = k'
      · simp [setAttr, getAttr, h1, h2, h, h']
      · simp [setAttr, getAttr, h1, h2, ih]

theorem deserField_serField (tx : Transaction) (fs : FieldSpec)
    (attrs : List (String × Value)) (r : List Nat) (v : Value)
    (hok : fieldOk fs = true)
    (hget : getAttr tx.attrs fs.name = some v)
    (hval : validValue fs.fmt v = true) :
    ∃ b, serField tx fs = .ok b ∧
      deserField attrs fs (b ++ r) = .ok (setAttr attrs fs.name v, r) := by
  obtain ⟨fname, ffmt, fnum, fdef⟩ := fs
  cases ffmt with
  | fmtIntS =>
    cases v with
    | vInt i =>
      simp only [validValue] at hval
      simp only [fieldOk, decide_eq_true_eq] at hok
      subst hok
      refine ⟨bytesOfNatLE 4 (intToTwos 4 i), ?_, ?_⟩
      · simp only [serField, hget, intPack, hval, if_true]
      · have e1 := serRead_front 4 (bytesOfNatLE 4 (intToTwos 4 i)) r (length_bytesOfNatLE 4 _)
        simp [deserField, e1, length_bytesOfNatLE,
          intFromTwos_intToTwos true 4 i (by norm_num) hval]
    | vBytes b => simp [validValue] at hval
    | vInputs l => simp [validValue] at hval
    | vOutputs l => simp [validValue] at hval
    | vNone => simp [validValue] at hval
  | fmtIntU =>
    cases v with
    | vInt i =>
      simp only [validValue] at hval
      simp only [fieldOk, decide_eq_true_eq] at hok
      subst hok
      refine ⟨bytesOfNatLE 4 (intToTwos 4 i), ?_, ?_⟩
      · simp only [serField, hget, intPack, hval, if_true]
      · have e1 := serRead_front 4 (bytesOfNatLE 4 (intToTwos 4 i)) r (length_bytesOfNatLE 4 _)
        simp [deserField, e1, length_bytesOfNatLE,
          intFromTwos_intToTwos false 4 i (by norm_num) hval]
    | vBytes b => simp [validValue] at hval
    | vInputs l => simp [validValue] at hval
    | vOutputs l => simp [validValue] at hval
    | vNone => simp [validValue] at hval
  | inputs =>
    cases v with
    | vInputs l =>
      simp only [validValue, Bool.and_eq_true, decide_eq_true_eq] at hval
      obtain ⟨hall, hlen⟩ := hval
      simp only [fieldOk, decide_eq_true_eq] at hok
      subst hok
      obtain ⟨b, hb1, hb2⟩ :=
        vecDeser_vecSer txInDeser txInSer validTxIn txInDeser_txInSer l hall hlen r
      refine ⟨b, ?_, ?_⟩
      · simp only [serField, hget, hb1]
      · simp only [deserField, hb2]
    | vInt i => simp [validValue] at hval
    | vBytes b => simp [validValue] at hval
    | vOutputs l => simp [validValue] at hval
    | vNone => simp [validValue] at hval
  | outputs =>
    cases v with
    | vOutputs l =>
      simp only [validValue, Bool.and_eq_true, decide_eq_true_eq] at hval
      obtain ⟨hall, hlen⟩ := hval
      simp only [fieldOk, decide_eq_true_eq] at hok
      subst hok
      obtain ⟨b, hb1, hb2⟩ :=
        vecDeser_vecSer txOutDeser txOutSer validTxOut txOutDeser_txOutSer l hall hlen r
      refine ⟨b, ?_, ?_⟩
      · simp only [serField, hget, hb1]
      · simp only [deserField, hb2]
    | vInt i => simp [validValue] at hval
    | vBytes b => simp [validValue] at hval
    | vInputs l => simp [validValue] at hval
    | vNone => simp [validValue] at hval
  | bytes =>
    cases v with
    | vBytes b =>
      simp only [validValue, Bool.and_eq_true, decide_eq_true_eq] at hval
      obtain ⟨hall, hlen⟩ := hval
      obtain ⟨c, hc1, hc2⟩ := bytesDeser_bytesSer b r hlen
      refine ⟨c, ?_, ?_⟩
      · simp only [serField, hget, hc1]
      · simp only [deserField, hc2]
    | vInt i => simp [validValue] at hval
    | vInputs l => simp [validValue] at hval
    | vOutputs l => simp [validValue] at hval
    | vNone => simp [validValue] at hval
  | vectortx => simp [fieldOk] at hok

theorem deserFields_serFields (fields : Schema) (tx : Transaction)
    (attrs0 : List (String × Value)) (r : List Nat)
    (hok : fields.all fieldOk = true)
    (hnd : (fields.map (fun fs => fs.name)).Nodup)
    (hv : ∀ fs ∈ fields, ∃ v, getAttr tx.attrs fs.name = some v ∧ validValue fs.fmt v = true) :
    ∃ bs attrs', serFields tx fields = .ok bs ∧
      deserFields attrs0 fields (bs ++ r) = .ok (attrs', r) ∧
      (∀ fs ∈ fields, getAttr attrs' fs.name = getAttr tx.attrs fs.name) ∧
      (∀ k, k ∉ fields.map (fun fs => fs.name) → getAttr attrs' k = getAttr attrs0 k) := by
  induction fields generalizing attrs0 with
  | nil =>
    exact ⟨[], attrs0, rfl, rfl, by simp, fun k _ => rfl⟩
  | cons fs rest ih =>
    simp only [List.all_cons, Bool.and_eq_true] at hok
    obtain ⟨hok1, hokr⟩ := hok
    simp only [List.map_cons, List.nodup_cons] at hnd
    obtain ⟨hnd1, hndr⟩ := hnd
    obtain ⟨v, hget, hval⟩ := hv fs (by simp)
    have hvr : ∀ g ∈ rest, ∃ v, getAttr tx.attrs g.name = some v ∧ validValue g.fmt v = true :=
      fun g hg => hv g (by simp [hg])
    obtain ⟨bsr, attrs', hb1, hb2, hb3, hb4⟩ := ih (setAttr attrs0 fs.name v) hokr hndr hvr
    obtain ⟨b, hf1, hf2⟩ := deserField_serField tx fs attrs0 (bsr ++ r) v hok1 hget hval
    refine ⟨b ++ bsr, attrs', ?_, ?_, ?_, ?_⟩
    · rw [serFields, hf1, hb1]
    · simp only [deserFields, List.append_assoc, hf2, hb2]
    · intro g hg
      rcases List.mem_cons.mp hg with hgfs | hgr
      · subst hgfs
        rw [hb4 g.name hnd1, getAttr_setAttr_self, hget]
      · exact hb3 g hgr
    · intro k hk
      simp only [List.map_cons, List.mem_cons, not_or] at hk
      obtain ⟨hk1, hk2⟩ := hk
      rw [hb4 k hk2, getAttr_setAttr_other _ _ _ _ hk1]

theorem txNew_fields (g : Schema) : (txNew g).fields = g := rfl

theorem presets_schemas_ok (p : ParamsPreset) (hp : p ∈ presets_list) :
    p.tx_fields.all fieldOk = true ∧ (p.tx_fields.map (fun fs => fs.name)).Nodup := by
  fin_cases hp <;> exact ⟨by decide, by decide⟩

/-- C1: for every built-in preset (Bitcoin, Clams, Freicoin, Peercoin)
and every transaction entity built from that preset's tx field schema
(each field holding a well-typed, in-range value), serializing the entity
with `stream_serialize` and then deserializing the resulting bytes with
`stream_deserialize` under the same active schema yields an entity equal
field-for-field to the original. -/
theorem spec_C1 (p : ParamsPreset) (hp : p ∈ presets_list) (tx : Transaction)
    (hf : tx.fields = p.tx_fields) (hv : validTx tx = true) :
    ∃ bs tx', serializeTx tx = .ok bs ∧
      stream_deserialize p.tx_fields bs = .ok (tx', []) ∧ txFieldEq tx tx' := by
  obtain ⟨hok, hnd⟩ := presets_schemas_ok p hp
  have hv' : ∀ fs ∈ p.tx_fields,
      ∃ v, getAttr tx.attrs fs.name = some v ∧ validValue fs.fmt v = true := by
    intro fs hfs
    have h1 := List.all_eq_true.mp hv fs (by rw [hf]; exact hfs)
    cases hg : getAttr tx.attrs fs.name with
    | none => rw [hg] at h1; cases h1
    | some v => rw [hg] at h1; exact ⟨v, rfl, h1⟩
  obtain ⟨bs, attrs', h1, h2, h3, _⟩ :=
    deserFields_serFields p.tx_fields tx (txNew p.tx_fields).attrs [] hok hnd hv'
  rw [List.append_nil] at h2
  refine ⟨bs, { fields := p.tx_fields, attrs := attrs' }, ?_, ?_, ?_, ?_⟩
  · rw [serializeTx, hf]
    exact h1
  · simp only [stream_deserialize, txNew_fields, h2]
  · exact hf
  · intro fs hfs
    rw [hf] at hfs
    exact (h3 fs hfs).symm

theorem spec_C1_witness :
    BitcoinPreset ∈ presets_list ∧
    (txNew BitcoinPreset.tx_fields).fields = BitcoinPreset.tx_fields ∧
    validTx (txNew BitcoinPreset.tx_fields) = true ∧
    ∃ bs tx', serializeTx (txNew BitcoinPreset.tx_fields) = .ok bs ∧
      stream_deserialize BitcoinPreset.tx_fields bs = .ok (tx', []) ∧
      txFieldEq (txNew BitcoinPreset.tx_fields) tx' :=
  ⟨by decide, rfl, by decide,
    spec_C1 BitcoinPreset (by decide) (txNew BitcoinPreset.tx_fields) rfl (by decide)⟩

/-- C2: a transaction entity constructed while one preset is active keeps
its serialized byte output exactly identical after `set_to_preset` switches
the process-wide state to any other preset; the entity captured its own
copy of the field schema at construction (`set_serialization` stores
`list(transaction_fields)`), and `set_tx_fields` only rebinds the module
global, so later changes do not affect it. -/
theorem spec_C2 (st1 st2 : ChainState) (p2 : String) (tx : Transaction)
    (h : set_to_preset p2 st1 = (st2, none)) :
    serializeInState st2 tx = serializeInState st1 tx ∧
    (txNew st1.transaction_fields).fields = st1.transaction_fields :=
  ⟨rfl, rfl⟩

theorem spec_C2_witness :
    set_to_preset "Clams" initChainState =
      ((set_to_preset "Clams" initChainState).1, none) ∧
    (serializeInState (set_to_preset "Clams" initChainState).1
        (txNew initChainState.transaction_fields) =
      serializeInState initChainState (txNew initChainState.transaction_fields) ∧
    (txNew initChainState.transaction_fields).fields = initChainState.transaction_fields) :=
  ⟨rfl, spec_C2 initChainState (set_to_preset "Clams" initChainState).1 "Clams"
    (txNew initChainState.transaction_fields) rfl⟩

/-- C3: with the Bitcoin preset active, deserializing the byte string
`01000000000000000000` yields a transaction with `nVersion = 1`,
`vin = []`, `vout = []`, `nLockTime = 0`, and serializing that
transaction yields exactly those same ten bytes. -/
theorem spec_C3 :
    stream_deserialize BitcoinPreset.tx_fields [1, 0, 0, 0, 0, 0, 0, 0, 0, 0] =
      .ok (txC3, []) ∧
    getAttr txC3.attrs "nVersion" = some (.vInt 1) ∧
    getAttr txC3.attrs "vin" = some (.vInputs []) ∧
    getAttr txC3.attrs "vout" = some (.vOutputs []) ∧
    getAttr txC3.attrs "nLockTime" = some (.vInt 0) ∧
    serializeTx txC3 = .ok [1, 0, 0, 0, 0, 0, 0, 0, 0, 0] :=
  ⟨rfl, rfl, rfl, rfl, rfl, rfl⟩

/-- C4: `set_to_preset(name)` for an unregistered name raises the lookup
error before any setter runs, leaving all three schemas and the
opcode-override table unmodified; for a registered name it sets all four
from the preset. -/
theorem spec_C4 (name : String) (st : ChainState) :
    (presets_lookup name = none →
      set_to_preset name st = (st, some .keyError)) ∧
    (∀ p, presets_lookup name = some p →
      set_to_preset name st =
        ({ transaction_fields := p.tx_fields,
           block_header_fields := p.block_header_fields,
           block_fields := p.block_fields,
           overridden_opcodes := p.opcode_overrides }, none)) := by
  constructor
  · intro h
    rw [set_to_preset, h]
  · intro p h
    rw [set_to_preset, h]
    rfl

theorem spec_C4_witness :
    presets_lookup "Dogecoin" = none ∧
    set_to_preset "Dogecoin" initChainState = (initChainState, some .keyError) ∧
    presets_lookup "Clams" = some ClamsPreset ∧
    set_to_preset "Clams" initChainState =
      ({ transaction_fields := ClamsPreset.tx_fields,
         block_header_fields := ClamsPreset.block_header_fields,
         block_fields := ClamsPreset.block_fields,
         overridden_opcodes := ClamsPreset.opcode_overrides }, none) :=
  ⟨rfl, (spec_C4 "Dogecoin" initChainState).1 rfl, rfl,
    (spec_C4 "Clams" initChainState).2 ClamsPreset rfl⟩

theorem getAttr_fillFold_preserve (gs : Schema) (a : List (String × Value))
    (k : String) (v : Value) (h : getAttr a k = some v) :
    getAttr (gs.foldl fillDefault a) k = some v := by
  induction gs generalizing a with
  | nil => exact h
  | cons fs rest ih =>
    simp only [List.foldl_cons]
    rw [fillDefault]
    cases hg : getAttr a fs.name with
    | some w => exact ih a h
    | none =>
      apply ih
      by_cases hk : k = fs.name
      · subst hk
        rw [h] at hg
        cases hg
      · rw [getAttr_setAttr_other a fs.name k fs.default hk]
        exact h

theorem getAttr_fillFold_fill (gs : Schema) (a : List (String × Value)) (fs : FieldSpec)
    (hmem : fs ∈ gs) (hnd : (gs.map (fun g => g.name)).Nodup)
    (h : getAttr a fs.name = none) :
    getAttr (gs.foldl fillDefault a) fs.name = some fs.default := by
  induction gs generalizing a with
  | nil => cases hmem
  | cons g rest ih =>
    simp only [List.map_cons, List.nodup_cons] at hnd
    obtain ⟨hnd1, hndr⟩ := hnd
    rcases List.mem_cons.mp hmem with hfg | hmr
    · subst hfg
      simp only [List.foldl_cons]
      rw [fillDefault, h]
      exact getAttr_fillFold_preserve rest _ _ _ (getAttr_setAttr_self a fs.name fs.default)
    · have hne : fs.name ≠ g.name := by
        intro hh
        exact hnd1 (hh ▸ List.mem_map.mpr ⟨fs, hmr, rfl⟩)
      simp only [List.foldl_cons]
      rw [fillDefault]
      cases hg : getAttr a g.name with
      | some w => exact ih a hmr hndr h
      | none =>
        refine ih _ hmr hndr ?_
        rw [getAttr_setAttr_other a g.name fs.name g.default hne]
        exact h

/-- C5 counterexample: `from_tx` after switching the global schema from
Bitcoin to Clams does not rebind the entity to the new schema — the
entity keeps its captured Bitcoin field list, and its serialized output
remains the ten-byte Bitcoin wire form without the Clams `Timestamp` and
`ClamSpeech` fields. -/
theorem spec_C5_cex :
    (Transaction.from_tx ClamsPreset.tx_fields (txNew BitcoinPreset.tx_fields)).fields ≠
      ClamsPreset.tx_fields ∧
    (Transaction.from_tx ClamsPreset.tx_fields (txNew BitcoinPreset.tx_fields)).fields =
      BitcoinPreset.tx_fields ∧
    serializeTx (Transaction.from_tx ClamsPreset.tx_fields (txNew BitcoinPreset.tx_fields)) =
      .ok [1, 0, 0, 0, 0, 0, 0, 0, 0, 0] :=
  ⟨by decide, rfl, rfl⟩

/-- C5 (amended): `from_tx` after a chainparams change fills every field
newly introduced by the new global schema with that field's declared
default and leaves every previously-set attribute value unchanged, but it
does not rebind the entity to the new schema: the entity's captured
serialization field list is left as it was. -/
theorem spec_C5 (globalFields : Schema) (tx : Transaction)
    (hnd : (globalFields.map (fun fs => fs.name)).Nodup) :
    (Transaction.from_tx globalFields tx).fields = tx.fields ∧
    (∀ k v, getAttr tx.attrs k = some v →
      getAttr (Transaction.from_tx globalFields tx).attrs k = some v) ∧
    (∀ fs ∈ globalFields, getAttr tx.attrs fs.name = none →
      getAttr (Transaction.from_tx globalFields tx).attrs fs.name = some fs.default) := by
  refine ⟨rfl, ?_, ?_⟩
  · intro k v h
    exact getAttr_fillFold_preserve globalFields tx.attrs k v h
  · intro fs hmem h
    exact getAttr_fillFold_fill globalFields tx.attrs fs hmem hnd h

theorem spec_C5_witness :
    (ClamsPreset.tx_fields.map (fun fs => fs.name)).Nodup ∧
    ((Transaction.from_tx ClamsPreset.tx_fields (txNew BitcoinPreset.tx_fields)).fields =
        (txNew BitcoinPreset.tx_fields).fields ∧
    (∀ k v, getAttr (txNew BitcoinPreset.tx_fields).attrs k = some v →
      getAttr (Transaction.from_tx ClamsPreset.tx_fields
        (txNew BitcoinPreset.tx_fields)).attrs k = some v) ∧
    (∀ fs ∈ ClamsPreset.tx_fields,
      getAttr (txNew BitcoinPreset.tx_fields).attrs fs.name = none →
      getAttr (Transaction.from_tx ClamsPreset.tx_fields
        (txNew BitcoinPreset.tx_fields)).attrs fs.name = some fs.default)) :=
  ⟨by decide,
    spec_C5 ClamsPreset.tx_fields (txNew BitcoinPreset.tx_fields) (by decide)⟩

theorem serRead_good (n : Nat) : DeserGood (serRead n) := by
  intro s
  by_cases h : s.length < n
  · left
    rw [serRead, if_pos h]
  · right
    exact ⟨s.take n, s.drop n, by rw [serRead, if_neg h], by simp⟩

theorem varIntDeser_good : DeserGood varIntDeser := by
  intro s
  cases s with
  | nil => left; rfl
  | cons b s =>
    by_cases h1 : b = 0xfd
    · rcases serRead_good 2 s with h | ⟨x, s', h, hl⟩
      · left
        simp only [varIntDeser, if_pos h1, h]
      · right
        refine ⟨natOfBytesLE x, s', ?_, ?_⟩
        · simp only [varIntDeser, if_pos h1, h]
        · simp only [List.length_cons]
          omega
    · by_cases h2 : b = 0xfe
      · rcases serRead_good 4 s with h | ⟨x, s', h, hl⟩
        · left
          simp only [varIntDeser, if_neg h1, if_pos h2, h]
        · right
          refine ⟨natOfBytesLE x, s', ?_, ?_⟩
          · simp only [varIntDeser, if_neg h1, if_pos h2, h]
          · simp only [List.length_cons]
            omega
      · by_cases h3 : b = 0xff
        · rcases serRead_good 8 s with h | ⟨x, s', h, hl⟩
          · left
            simp only [varIntDeser, if_neg h1, if_neg h2, if_pos h3, h]
          · right
            refine ⟨natOfBytesLE x, s', ?_, ?_⟩
            · simp only [varIntDeser, if_neg h1, if_neg h2, if_pos h3, h]
            · simp only [List.length_cons]
              omega
        · right
          refine ⟨b, s, ?_, ?_⟩
          · simp only [varIntDeser, if_neg h1, if_neg h2, if_neg h3]
          · simp only [List.length_cons]
            omega

theorem bytesDeser_good : DeserGood bytesDeser := by
  intro s
  rcases varIntDeser_good s with h1 | ⟨n, s1, h1, hl1⟩
  · left
    simp only [bytesDeser, h1]
  · rcases serRead_good n s1 with h2 | ⟨x, s2, h2, hl2⟩
    · left
      simp only [bytesDeser, h1, h2]
    · right
      refine ⟨x, s2, ?_, by omega⟩
      simp only [bytesDeser, h1, h2]

theorem txInDeser_good : DeserGood txInDeser := by
  intro s
  rcases serRead_good 32 s with h1 | ⟨h, s1, h1, hl1⟩
  · left
    simp only [txInDeser, h1]
  · rcases serRead_good 4 s1 with h2 | ⟨nb, s2, h2, hl2⟩
    · left
      simp only [txInDeser, h1, h2]
    · rcases bytesDeser_good s2 with h3 | ⟨ss, s3, h3, hl3⟩
      · left
        simp only [txInDeser, h1, h2, h3]
      · rcases serRead_good 4 s3 with h4 | ⟨sq, s4, h4, hl4⟩
        · left
          simp only [txInDeser, h1, h2, h3, h4]
        · right
          refine ⟨{ prevHash := h, prevN := intFromTwos false 4 nb,
                    scriptSig := ss, nSequence := intFromTwos false 4 sq },
            s4, ?_, by omega⟩
          simp only [txInDeser, h1, h2, h3, h4]

theorem txOutDeser_good : DeserGood txOutDeser := by
  intro s
  rcases serRead_good 8 s with h1 | ⟨vb, s1, h1, hl1⟩
  · left
    simp only [txOutDeser, h1]
  · rcases bytesDeser_good s1 with h2 | ⟨spk, s2, h2, hl2⟩
    · left
      simp only [txOutDeser, h1, h2]
    · right
      refine ⟨{ nValue := intFromTwos true 8 vb, scriptPubKey := spk }, s2, ?_, by omega⟩
      simp only [txOutDeser, h1, h2]

theorem vecDeserN_good (d : List Nat → Except Err (α × List Nat)) (hd : DeserGood d)
    (n : Nat) : DeserGood (vecDeserN d n) := by
  induction n with
  | zero => intro s; right; exact ⟨[], s, rfl, le_refl _⟩
  | succ n ih =>
    intro s
    rcases hd s with h1 | ⟨x, s1, h1, hl1⟩
    · left
      simp only [vecDeserN, h1]
    · rcases ih s1 with h2 | ⟨xs, s2, h2, hl2⟩
      · left
        simp only [vecDeserN, h1, h2]
      · right
        refine ⟨x :: xs, s2, ?_, by omega⟩
        simp only [vecDeserN, h1, h2]

theorem vecDeser_good (d : List Nat → Except Err (α × List Nat)) (hd : DeserGood d) :
    DeserGood (vecDeser d) := by
  intro s
  rcases varIntDeser_good s with h1 | ⟨n, s1, h1, hl1⟩
  · left
    simp only [vecDeser, h1]
  · rcases vecDeserN_good d hd n s1 with h2 | ⟨xs, s2, h2, hl2⟩
    · left
      simp only [vecDeser, h1, h2]
    · right
      refine ⟨xs, s2, ?_, by omega⟩
      simp only [vecDeser, h1, h2]

theorem deserField_progress (attrs : List (String × Value)) (fs : FieldSpec)
    (s : List Nat) (hok : fieldOk fs = true) :
    deserField attrs fs s = .error .truncated ∨
      ∃ a' s', deserField attrs fs s = .ok (a', s') ∧
        s'.length + fieldFixedWidth fs ≤ s.length := by
  obtain ⟨fname, ffmt, fnum, fdef⟩ := fs
  cases ffmt with
  | fmtIntS =>
    simp only [fieldOk, decide_eq_true_eq] at hok
    subst hok
    by_cases h : s.length < 4
    · left
      simp only [deserField, serRead, if_pos h]
    · have hc : ¬ s.length < 4 := h
      have hlen4 : (s.take 4).length = 4 := by
        simp only [List.length_take]
        omega
      right
      refine ⟨setAttr attrs fname (.vInt (intFromTwos true 4 (s.take 4))), s.drop 4, ?_, ?_⟩
      · simp [deserField, serRead, hc, hlen4]
      · simp only [fieldFixedWidth, Option.getD_some, List.length_drop]
        omega
  | fmtIntU =>
    simp only [fieldOk, decide_eq_true_eq] at hok
    subst hok
    by_cases h : s.length < 4
    · left
      simp only [deserField, serRead, if_pos h]
    · have hc : ¬ s.length < 4 := h
      have hlen4 : (s.take 4).length = 4 := by
        simp only [List.length_take]
        omega
      right
      refine ⟨setAttr attrs fname (.vInt (intFromTwos false 4 (s.take 4))), s.drop 4, ?_, ?_⟩
      · simp [deserField, serRead, hc, hlen4]
      · simp only [fieldFixedWidth, Option.getD_some, List.length_drop]
        omega
  | inputs =>
    rcases vecDeser_good txInDeser txInDeser_good s with h | ⟨l, s', h, hl⟩
    · left
      simp only [deserField, h]
    · right
      refine ⟨setAttr attrs fname (.vInputs l), s', ?_, ?_⟩
      · simp only [deserField, h]
      · simp only [fieldFixedWidth]
        omega
  | outputs =>
    rcases vecDeser_good txOutDeser txOutDeser_good s with h | ⟨l, s', h, hl⟩
    · left
      simp only [deserField, h]
    · right
      refine ⟨setAttr attrs fname (.vOutputs l), s', ?_, ?_⟩
      · simp only [deserField, h]
      · simp only [fieldFixedWidth]
        omega
  | bytes =>
    rcases bytesDeser_good s with h | ⟨b, s', h, hl⟩
    · left
      simp only [deserField, h]
    · right
      refine ⟨setAttr attrs fname (.vBytes b), s', ?_, ?_⟩
      · simp only [deserField, h]
      · simp only [fieldFixedWidth]
        omega
  | vectortx => simp [fieldOk] at hok

theorem deserFields_truncated (fields : Schema) (attrs : List (String × Value))
    (s : List Nat) (hok : fields.all fieldOk = true)
    (hlen : s.length < minFixedLen fields) :
    deserFields attrs fields s = .error .truncated := by
  induction fields generalizing attrs s with
  | nil => simp [minFixedLen] at hlen
  | cons fs rest ih =>
    simp only [List.all_cons, Bool.and_eq_true] at hok
    obtain ⟨hok1, hokr⟩ := hok
    have hsum : minFixedLen (fs :: rest) = fieldFixedWidth fs + minFixedLen rest := by
      simp [minFixedLen]
    rcases deserField_progress attrs fs s hok1 with herr | ⟨a', s', hstep, hw⟩
    · simp only [deserFields, herr]
    · simp only [deserFields, hstep]
      exact ih a' s' hokr (by omega)

/-- C6: deserializing a byte buffer shorter than a schema's minimum
fixed-field length fails with the truncation error (and, the result being
an error, no partial entity is returned), for every schema in the
documented tx-field format. -/
theorem spec_C6 (fields : Schema) (s : List Nat)
    (hok : fields.all fieldOk = true)
    (hlen : s.length < minFixedLen fields) :
    stream_deserialize fields s = .error .truncated := by
  have h := deserFields_truncated fields (txNew fields).attrs s hok hlen
  simp only [stream_deserialize, txNew_fields, h]

theorem spec_C6_witness :
    BitcoinPreset.tx_fields.all fieldOk = true ∧
    ([1, 2, 3] : List Nat).length < minFixedLen BitcoinPreset.tx_fields ∧
    stream_deserialize BitcoinPreset.tx_fields [1, 2, 3] = .error .truncated :=
  ⟨by decide, by decide,
    spec_C6 BitcoinPreset.tx_fields [1, 2, 3] (by decide) (by decide)⟩

/-- C7: while the Clams preset is active, opcode value `0xb0` dispatches
to the Clams CHECKLOCKTIMEVERIFY override handler; after
`set_to_preset('Bitcoin')` the same opcode value dispatches to the base
(pre-override) handler again, because activating a preset replaces the
override table and Bitcoin overrides nothing. -/
theorem spec_C7 (st st1 st2 : ChainState)
    (h1 : set_to_preset "Clams" st = (st1, none))
    (h2 : set_to_preset "Bitcoin" st1 = (st2, none)) :
    dispatch st1 0xb0 = .override .clams_checklocktimeverify ∧
    dispatch st2 0xb0 = .base 0xb0 := by
  have e1 : set_to_preset "Clams" st =
      ({ transaction_fields := ClamsPreset.tx_fields,
         block_header_fields := ClamsPreset.block_header_fields,
         block_fields := ClamsPreset.block_fields,
         overridden_opcodes := ClamsPreset.opcode_overrides }, none) := rfl
  rw [e1] at h1
  injection h1 with ha _
  subst ha
  have e2 : set_to_preset "Bitcoin"
      ({ transaction_fields := ClamsPreset.tx_fields,
         block_header_fields := ClamsPreset.block_header_fields,
         block_fields := ClamsPreset.block_fields,
         overridden_opcodes := ClamsPreset.opcode_overrides } : ChainState) =
      ({ transaction_fields := BitcoinPreset.tx_fields,
         block_header_fields := BitcoinPreset.block_header_fields,
         block_fields := BitcoinPreset.block_fields,
         overridden_opcodes := [] }, none) := rfl
  rw [e2] at h2
  injection h2 with hc _
  subst hc
  exact ⟨rfl, rfl⟩

theorem spec_C7_witness :
    set_to_preset "Clams" initChainState =
      ((set_to_preset "Clams" initChainState).1, none) ∧
    set_to_preset "Bitcoin" (set_to_preset "Clams" initChainState).1 =
      ((set_to_preset "Bitcoin" (set_to_preset "Clams" initChainState).1).1, none) ∧
    (dispatch (set_to_preset "Clams" initChainState).1 0xb0 =
        .override .clams_checklocktimeverify ∧
      dispatch (set_to_preset "Bitcoin" (set_to_preset "Clams" initChainState).1).1 0xb0 =
        .base 0xb0) :=
  ⟨rfl, rfl, spec_C7 initChainState _ _ rfl rfl⟩

theorem templateScan_cons_lit (tvars : List (String × String)) (s txt : String)
    (ss ts used : List String) (hvar : isVarToken txt = false) (heq : s = txt) :
    templateScan tvars (s :: ss) (txt :: ts) used = templateScan tvars ss ts used := by
  simp [templateScan, hvar, heq]

theorem templateScan_cons_var (tvars : List (String × String)) (s txt : String)
    (ss ts used : List String) (ty : String)
    (hvar : isVarToken txt = true) (hlook : lookupStr tvars (varName txt) = some ty)
    (hvalid : is_valid_variable_value s ty = true) :
    templateScan tvars (s :: ss) (txt :: ts) used =
      templateScan tvars ss ts (used ++ [varName txt]) := by
  simp [templateScan, hvar, hlook, hvalid]

/-- C8: a script of the token form `OP_DUP OP_HASH160 <20-byte hex push>
OP_EQUALVERIFY OP_CHECKSIG` matches the Pay-To-Public-Key-Hash template
(`is_template_script` returns `True`, and `coerce_item` classifies it as
that template since it is the first known template to match), and the
push argument between `OP_HASH160` and `OP_EQUALVERIFY` is extracted as
the value of the template variable `recipient`. -/
theorem spec_C8 (body : String) (hlen : body.length = 40) :
    is_template_script
      ["OP_DUP", "OP_HASH160", "0x" ++ body, "OP_EQUALVERIFY", "OP_CHECKSIG"]
      p2pkhTemplate = true ∧
    coerce_item ["OP_DUP", "OP_HASH160", "0x" ++ body, "OP_EQUALVERIFY", "OP_CHECKSIG"] =
      some (p2pkhTemplate, [("recipient", "0x" ++ body)]) := by
  have hdata : ("0x" ++ body).data = '0' :: 'x' :: body.data := by
    simp [String.data_append]
  have hv : is_valid_variable_value ("0x" ++ body) "address" = true := by
    rw [is_valid_variable_value, if_pos rfl, decide_eq_true_eq]
    simp only [format_hex_string, hdata, strip0x]
    exact hlen
  have hscan : templateScan p2pkhTemplate.vars
      ["OP_DUP", "OP_HASH160", "0x" ++ body, "OP_EQUALVERIFY", "OP_CHECKSIG"]
      (splitTokens p2pkhTemplate.text) [] = some ["recipient"] := by
    have hsplit : splitTokens p2pkhTemplate.text =
        ["OP_DUP", "OP_HASH160", "<recipient>", "OP_EQUALVERIFY", "OP_CHECKSIG"] := rfl
    rw [hsplit]
    rw [templateScan_cons_lit _ _ _ _ _ _ (by decide) rfl]
    rw [templateScan_cons_lit _ _ _ _ _ _ (by decide) rfl]
    rw [templateScan_cons_var _ _ _ _ _ _ "address" (by decide) (by decide) hv]
    decide
  have hmatch : is_template_script
      ["OP_DUP", "OP_HASH160", "0x" ++ body, "OP_EQUALVERIFY", "OP_CHECKSIG"]
      p2pkhTemplate = true := by
    simp only [is_template_script, hscan]
    decide
  refine ⟨hmatch, ?_⟩
  have hfind : known_templates.find?
      (fun t => is_template_script
        ["OP_DUP", "OP_HASH160", "0x" ++ body, "OP_EQUALVERIFY", "OP_CHECKSIG"] t) =
      some p2pkhTemplate := by
    rw [show known_templates = p2pkhTemplate :: [p2shTemplate, nullTemplate] from rfl]
    exact List.find?_cons_of_pos _ hmatch
  have hex : extractVariables
      ["OP_DUP", "OP_HASH160", "0x" ++ body, "OP_EQUALVERIFY", "OP_CHECKSIG"]
      p2pkhTemplate = [("recipient", "0x" ++ body)] := rfl
  simp only [coerce_item, hfind, hex]

theorem spec_C8_witness :
    ("aaaaaaaaaaaaaaaaaaaaaaaaaaaaaaaaaaaaaaaa" : String).length = 40 ∧
    (is_template_script
      ["OP_DUP", "OP_HASH160", "0x" ++ "aaaaaaaaaaaaaaaaaaaaaaaaaaaaaaaaaaaaaaaa",
       "OP_EQUALVERIFY", "OP_CHECKSIG"] p2pkhTemplate = true ∧
    coerce_item ["OP_DUP", "OP_HASH160", "0x" ++ "aaaaaaaaaaaaaaaaaaaaaaaaaaaaaaaaaaaaaaaa",
       "OP_EQUALVERIFY", "OP_CHECKSIG"] =
      some (p2pkhTemplate,
        [("recipient", "0x" ++ "aaaaaaaaaaaaaaaaaaaaaaaaaaaaaaaaaaaaaaaa")])) :=
  ⟨by decide, spec_C8 "aaaaaaaaaaaaaaaaaaaaaaaaaaaaaaaaaaaaaaaa" (by decide)⟩

theorem templateScan_shorter (tvars : List (String × String)) :
    ∀ (ss ts used : List String), ss.length ≤ ts.length →
    (∀ p ∈ ss.zip ts, tokMatches tvars p.1 p.2 = true) →
    templateScan tvars ss ts used =
      some (used ++ (ss.zip ts).filterMap
        (fun p => if isVarToken p.2 then some (varName p.2) else none))
  | [], ts, used, _, _ => by simp [templateScan]
  | s :: ss, [], used, hlen, _ => by simp at hlen
  | s :: ss, txt :: ts, used, hlen, hmatch => by
    have hm := hmatch (s, txt) (by rw [List.zip_cons_cons]; exact List.mem_cons_self _ _)
    have hlen' : ss.length ≤ ts.length := by
      simp only [List.length_cons] at hlen
      omega
    have hmatch' : ∀ p ∈ ss.zip ts, tokMatches tvars p.1 p.2 = true := fun p hp =>
      hmatch p (by rw [List.zip_cons_cons]; exact List.mem_cons_of_mem _ hp)
    rw [tokMatches] at hm
    by_cases hvar : isVarToken txt = true
    · rw [if_pos hvar] at hm
      cases hlook : lookupStr tvars (varName txt) with
      | none => rw [hlook] at hm; cases hm
      | some ty =>
        rw [hlook] at hm
        rw [templateScan_cons_var tvars s txt ss ts used ty hvar hlook hm]
        rw [templateScan_shorter tvars ss ts (used ++ [varName txt]) hlen' hmatch']
        simp [List.zip_cons_cons, List.filterMap_cons, hvar]
    · have hvarf : isVarToken txt = false := by
        revert hvar
        cases isVarToken txt <;> simp
      rw [if_neg hvar] at hm
      rw [templateScan_cons_lit tvars s txt ss ts used hvarf (of_decide_eq_true hm)]
      rw [templateScan_shorter tvars ss ts used hlen' hmatch']
      simp [List.zip_cons_cons, List.filterMap_cons, hvarf]

/-- C9: template matching does not require the script to contain the
template's full token sequence. For every template and every script whose
token sequence is a strict prefix of the template's (every present token
matching: literals equal, variable positions holding valid declared
values) such that every declared variable received a value,
`is_template_script` returns `True`. -/
theorem spec_C9 (t : ScriptTemplate) (script : ScriptTokens)
    (hlen : script.length < (splitTokens t.text).length)
    (hmatch : ∀ p ∈ script.zip (splitTokens t.text), tokMatches t.vars p.1 p.2 = true)
    (hcover : ∀ kv ∈ t.vars, ∃ p ∈ script.zip (splitTokens t.text),
      isVarToken p.2 = true ∧ varName p.2 = kv.1) :
    is_template_script script t = true := by
  have hp := templateScan_shorter t.vars script (splitTokens t.text) [] (le_of_lt hlen) hmatch
  simp only [is_template_script, hp, List.nil_append]
  apply List.all_eq_true.mpr
  intro kv hkv
  obtain ⟨p, hp2, hvar, hname⟩ := hcover kv hkv
  rw [decide_eq_true_eq]
  exact List.mem_filterMap.mpr ⟨p, hp2, by rw [if_pos hvar, hname]⟩

theorem spec_C9_witness :
    (["OP_DUP", "OP_HASH160",
        "0xaaaaaaaaaaaaaaaaaaaaaaaaaaaaaaaaaaaaaaaa"] : ScriptTokens).length <
      (splitTokens p2pkhTemplate.text).length ∧
    (∀ p ∈ (["OP_DUP", "OP_HASH160",
        "0xaaaaaaaaaaaaaaaaaaaaaaaaaaaaaaaaaaaaaaaa"] : ScriptTokens).zip
        (splitTokens p2pkhTemplate.text),
      tokMatches p2pkhTemplate.vars p.1 p.2 = true) ∧
    (∀ kv ∈ p2pkhTemplate.vars, ∃ p ∈ (["OP_DUP", "OP_HASH160",
        "0xaaaaaaaaaaaaaaaaaaaaaaaaaaaaaaaaaaaaaaaa"] : ScriptTokens).zip
        (splitTokens p2pkhTemplate.text),
      isVarToken p.2 = true ∧ varName p.2 = kv.1) ∧
    is_template_script ["OP_DUP", "OP_HASH160",
      "0xaaaaaaaaaaaaaaaaaaaaaaaaaaaaaaaaaaaaaaaa"] p2pkhTemplate = true :=
  ⟨by decide, by decide, by decide,
    spec_C9 p2pkhTemplate
      ["OP_DUP", "OP_HASH160", "0xaaaaaaaaaaaaaaaaaaaaaaaaaaaaaaaaaaaaaaaa"]
      (by decide) (by decide) (by decide)⟩

theorem templateScan_used_sound (tvars : List (String × String)) :
    ∀ (ss ts used res : List String),
    templateScan tvars ss ts used = some res →
    ∀ k ∈ res, k ∈ used ∨
      ∃ s ty, lookupStr tvars k = some ty ∧ is_valid_variable_value s ty = true
  | [], ts, used, res, h => by
    simp only [templateScan, Option.some.injEq] at h
    subst h
    intro k hk
    left
    exact hk
  | s :: ss, [], used, res, h => by simp [templateScan] at h
  | s :: ss, txt :: ts, used, res, h => by
    rw [templateScan] at h
    by_cases hvar : isVarToken txt = true
    · rw [if_pos hvar] at h
      cases hlook : lookupStr tvars (varName txt) with
      | none => rw [hlook] at h; cases h
      | some ty =>
        simp only [hlook] at h
        by_cases hval : is_valid_variable_value s ty = true
        · rw [if_pos hval] at h
          intro k hk
          rcases templateScan_used_sound tvars ss ts (used ++ [varName txt]) res h k hk
            with hin | hex
          · rcases List.mem_append.mp hin with h1 | h2
            · left
              exact h1
            · right
              have hkv : k = varName txt := by simpa using h2
              exact ⟨s, ty, by rw [hkv]; exact hlook, hval⟩
          · right
            exact hex
        · rw [if_neg hval] at h
          cases h
    · rw [if_neg hvar] at h
      by_cases heq : s = txt
      · rw [if_pos heq] at h
        intro k hk
        exact templateScan_used_sound tvars ss ts used res h k hk
      · rw [if_neg heq] at h
        cases h

theorem null_template_never_matches (script : ScriptTokens) :
    is_template_script script nullTemplate = false := by
  cases hscan : templateScan nullTemplate.vars script (splitTokens nullTemplate.text) [] with
  | none => simp [is_template_script, hscan]
  | some used =>
    simp only [is_template_script, hscan]
    by_cases hmem : "text" ∈ used
    · exfalso
      rcases templateScan_used_sound nullTemplate.vars script
          (splitTokens nullTemplate.text) [] used hscan "text" hmem with hin | ⟨s, ty, hl, hv⟩
      · cases hin
      · have hsome : lookupStr nullTemplate.vars "text" = some "text" := rfl
        have hty : ty = "text" := Option.some.inj (hl.symm.trans hsome)
        subst hty
        have hfalse : is_valid_variable_value s "text" = false := rfl
        rw [hfalse] at hv
        cases hv
    · simp [nullTemplate, hmem]

/-- C10: `is_valid_variable_value(value, 'text')` returns `False` for
every value, so `is_template_script` returns `False` for every script
checked against the built-in Null Output template `OP_RETURN <text>`
(whose only variable has type `text`), and `coerce_item` consequently
never classifies any script as that template. -/
theorem spec_C10 :
    (∀ v, is_valid_variable_value v "text" = false) ∧
    (∀ script, is_template_script script nullTemplate = false) ∧
    (∀ script r, coerce_item script ≠ some (nullTemplate, r)) := by
  refine ⟨fun v => rfl, null_template_never_matches, ?_⟩
  intro script r hcontra
  cases hfind : known_templates.find? (fun t => is_template_script script t) with
  | none =>
    simp only [coerce_item, hfind] at hcontra
    exact Option.noConfusion hcontra
  | some t =>
    simp only [coerce_item, hfind, Option.some.injEq, Prod.mk.injEq] at hcontra
    obtain ⟨ht, _⟩ := hcontra
    have hp := List.find?_some hfind
    rw [ht, null_template_never_matches script] at hp
    cases hp

end Hashmal
